import Mathlib

/-!
Verification of the work-journal-summarizer repository.

This file gives a shallow embedding in Lean 4 of the Python code of the
repository (src/summarizer/journal.py, config.py, reply_processor.py,
heartbeat.py, main.py, summarize.py) and proves the frozen claims about
it.  Python machine-level details are modelled as follows:

* Python `datetime.date` objects become the structure `PyDate` below;
  the validating constructor `date(y, m, d)`, which raises `ValueError`
  for out-of-range components, becomes `date_new : Nat -> Nat -> Nat ->
  Except PyError PyDate`.
* Fallible code returns `Except PyError _`; `.error .valueError` models a
  raised `ValueError` propagating out of the function.
* Python dicts (insertion ordered, unique keys) become association lists
  `List (String × PyVal)`; in claims that need them, hypotheses of the
  form `Nodup (keys _)` record the dict invariant that keys are unique.
* Filenames are ASCII strings; the regex `\d` is modelled as an ASCII
  digit test (the repository only ever produces ASCII filenames).
* The directory walks, HTTP calls and Gmail calls are modelled by
  passing the directory listing / the external model's response text /
  the email ledger explicitly as values.
-/

namespace WJS

/-! ## Python calendar dates (`datetime.date`) -/

/-- A Python `datetime.date` value: the raw year/month/day triple. -/
structure PyDate where
  year : Nat
  month : Nat
  day : Nat
deriving DecidableEq, Repr

/-- Raised Python exceptions that the embedded code can produce. -/
inductive PyError where
  | valueError
deriving DecidableEq, Repr

/-- Gregorian leap-year test, as in Python's `calendar.isleap`. -/
def isLeap (y : Nat) : Bool :=
  y % 4 = 0 && (y % 100 ≠ 0 || y % 400 = 0)

/-- Number of days of month `m` of year `y` (0 for an invalid month). -/
def daysInMonth (y m : Nat) : Nat :=
  if m = 1 then 31
  else if m = 2 then (if isLeap y then 29 else 28)
  else if m = 3 then 31
  else if m = 4 then 30
  else if m = 5 then 31
  else if m = 6 then 30
  else if m = 7 then 31
  else if m = 8 then 31
  else if m = 9 then 30
  else if m = 10 then 31
  else if m = 11 then 30
  else if m = 12 then 31
  else 0

/-- The validity check performed by the `datetime.date` constructor:
`MINYEAR = 1 ≤ year ≤ MAXYEAR = 9999`, `1 ≤ month ≤ 12`,
`1 ≤ day ≤ days_in_month`. -/
def dateValid (y m d : Nat) : Bool :=
  1 ≤ y && y ≤ 9999 && 1 ≤ m && m ≤ 12 && 1 ≤ d && d ≤ daysInMonth y m

/-- The Python expression `date(y, m, d)`: returns the date, or raises
`ValueError` when the components are not a valid calendar date. -/
def date_new (y m d : Nat) : Except PyError PyDate :=
  if dateValid y m d then .ok ⟨y, m, d⟩ else .error .valueError

/-- Python `date` comparison `a <= b` (lexicographic on y, m, d). -/
def dateLeB (a b : PyDate) : Bool :=
  a.year < b.year ||
    (a.year = b.year && (a.month < b.month ||
      (a.month = b.month && a.day ≤ b.day)))

/-- Python `date` comparison `a < b` (lexicographic on y, m, d). -/
def dateLtB (a b : PyDate) : Bool :=
  a.year < b.year ||
    (a.year = b.year && (a.month < b.month ||
      (a.month = b.month && a.day < b.day)))

/-! ## The date-filename regex `^(\d{4})-(\d{2})-(\d{2})...$`

`re.match` of the two anchored date patterns used by the repository
(`journal.py` line 55 and `heartbeat.py` line 54) is modelled by reading
a fixed number of digits, literal separators, and a literal tail. -/

/-- Read exactly `n` ASCII digits from the front of `cs`, folding them
onto the accumulator `acc` (most significant first, as `int()` does on
the captured group); return the value and the remaining characters. -/
def readDigits : Nat → Nat → List Char → Option (Nat × List Char)
  | 0, acc, cs => some (acc, cs)
  | n + 1, acc, c :: cs =>
      if c.isDigit then readDigits n (acc * 10 + (c.toNat - 48)) cs else none
  | _ + 1, _, [] => none

/-- Numeric value of a digit-group capture, as computed by `int()`. -/
def digitsToNat (l : List Char) : Nat :=
  l.foldl (fun a c => a * 10 + (c.toNat - 48)) 0

/-- Match the common `(\d{4})-(\d{2})-(\d{2})` head of the two filename
patterns, returning the three captured values and the rest of the
string. -/
def matchYMD (cs : List Char) : Option (Nat × Nat × Nat × List Char) :=
  match readDigits 4 0 cs with
  | none => none
  | some (y, cs₁) =>
    match cs₁ with
    | '-' :: cs₂ =>
      match readDigits 2 0 cs₂ with
      | none => none
      | some (m, cs₃) =>
        match cs₃ with
        | '-' :: cs₄ =>
          match readDigits 2 0 cs₄ with
          | none => none
          | some (d, rest) => some (y, m, d, rest)
        | _ => none
    | _ => none

/-- `journal.parse_date_from_filename`: match the filename against
`^(\d{4})-(\d{2})-(\d{2})\.md$` and build `date(y, m, d)` from the
captures.  The `date(...)` call can raise `ValueError`, which the
Python function does not catch, hence the `Except` result. -/
def parse_date_from_filename (filename : String) :
    Except PyError (Option PyDate) :=
  match matchYMD filename.data with
  | some (y, m, d, rest) =>
      if rest = ['.', 'm', 'd'] then
        match date_new y m d with
        | .ok dt => .ok (some dt)
        | .error e => .error e
      else .ok none
  | none => .ok none

/-- Declarative reading of the regex `^(\d{4})-(\d{2})-(\d{2})\.md$`:
the string splits into a 4-digit group, a hyphen, a 2-digit group, a
hyphen, a 2-digit group and the literal tail `.md`, and `y`, `m`, `d`
are the numeric values of the three captured groups. -/
def journalShape (s : String) (y m d : Nat) : Prop :=
  ∃ ys ms ds : List Char,
    s.data = ys ++ '-' :: (ms ++ '-' :: (ds ++ ['.', 'm', 'd'])) ∧
    ys.length = 4 ∧ ms.length = 2 ∧ ds.length = 2 ∧
    (∀ c ∈ ys, c.isDigit) ∧ (∀ c ∈ ms, c.isDigit) ∧ (∀ c ∈ ds, c.isDigit) ∧
    y = digitsToNat ys ∧ m = digitsToNat ms ∧ d = digitsToNat ds

/-! ## Sorting

Python's `list.sort` / `sorted` (Timsort) is a stable comparison sort;
all the claims need of it is that the result is a sorted permutation of
the input, which the insertion sort below also satisfies. -/

/-- Insert `x` into a list sorted by `le`, before the first element it
compares `le` to (stable for equal keys). -/
def insertSorted {α : Type} (le : α → α → Bool) (x : α) : List α → List α
  | [] => [x]
  | y :: ys => if le x y then x :: y :: ys else y :: insertSorted le x ys

/-- Sort a list by the boolean comparison `le` (model of Python sorting). -/
def sortBy {α : Type} (le : α → α → Bool) : List α → List α
  | [] => []
  | x :: xs => insertSorted le x (sortBy le xs)

/-! ## `journal.gather_entries` -/

/-- One element of the list returned by `gather_entries`: the dict
`{"date": ..., "filename": ..., "content": ...}`. -/
structure JEntry where
  date : PyDate
  filename : String
  content : String
deriving DecidableEq, Repr

/-- Step one day back from `d` (clamped at year 1, which Python instead
reports as an `OverflowError`; the claims never reach that bound). -/
def datePred (d : PyDate) : PyDate :=
  if 1 < d.day then ⟨d.year, d.month, d.day - 1⟩
  else if 1 < d.month then ⟨d.year, d.month - 1, daysInMonth d.year (d.month - 1)⟩
  else if 1 < d.year then ⟨d.year - 1, 12, 31⟩
  else d

/-- The Python expression `today - timedelta(days=k)`. -/
def dateSubDays (d : PyDate) : Nat → PyDate
  | 0 => d
  | k + 1 => dateSubDays (datePred d) k

/-- The `for file in journal_path.iterdir()` loop of `gather_entries`:
parse each filename, keep the files whose date is on or after `cutoff`,
in listing order.  A `ValueError` raised by the date parser propagates
(the loop does not catch it). -/
def gatherLoop (cutoff : PyDate) :
    List (String × String) → Except PyError (List JEntry)
  | [] => .ok []
  | (nm, content) :: rest =>
    match parse_date_from_filename nm with
    | .error e => .error e
    | .ok none => gatherLoop cutoff rest
    | .ok (some dt) =>
      match gatherLoop cutoff rest with
      | .error e => .error e
      | .ok es => .ok (if dateLeB cutoff dt then ⟨dt, nm, content⟩ :: es else es)

/-- `journal.gather_entries`, with the directory listing (pairs of
filename and file content), today's date and the lookback passed
explicitly: filter by the date pattern against `cutoff = today -
timedelta(days=lookback_days)`, then sort by date ascending. -/
def gather_entries (files : List (String × String)) (today : PyDate)
    (lookback : Nat) : Except PyError (List JEntry) :=
  match gatherLoop (dateSubDays today lookback) files with
  | .error e => .error e
  | .ok es => .ok (sortBy (fun a b => dateLeB a.date b.date) es)

/-! ## `heartbeat.check_stale_staging` -/

/-- `re.match` of `^(\d{4})-(\d{2})-(\d{2})-checkpoints\.md$` against a
filename, returning the three captured digit groups. -/
def checkpointNameMatch (s : String) : Option (Nat × Nat × Nat) :=
  match matchYMD s.data with
  | some (y, m, d, rest) =>
      if rest = "-checkpoints.md".data then some (y, m, d) else none
  | none => none

/-- The scanning loop of `check_stale_staging`: collect, in listing
order, the dates of checkpoint files strictly before `today`.  As in
`gather_entries`, the `date(...)` call can raise. -/
def staleLoop (today : PyDate) : List String → Except PyError (List PyDate)
  | [] => .ok []
  | f :: rest =>
    match checkpointNameMatch f with
    | none => staleLoop today rest
    | some (y, m, d) =>
      match date_new y m d with
      | .error e => .error e
      | .ok dt =>
        match staleLoop today rest with
        | .error e => .error e
        | .ok ds => .ok (if dateLtB dt today then dt :: ds else ds)

/-- `heartbeat.check_stale_staging`, with the staging directory listing
passed explicitly (`none` models a staging directory that does not
exist). -/
def check_stale_staging (listing : Option (List String)) (today : PyDate) :
    Except PyError (List PyDate) :=
  match listing with
  | none => .ok []
  | some files =>
    match staleLoop today files with
    | .error e => .error e
    | .ok ds => .ok (sortBy dateLeB ds)

/-! ## Python dicts and `config._deep_copy` / `config._deep_merge`

A configuration value is either a dict or some non-dict value; the code
only ever inspects values with `isinstance(value, dict)`, so all
non-dict values (strings, ints, lists, `None`, ...) are collapsed into
an opaque `atom` carrying an identity.  A dict is an insertion-ordered
association list. -/

/-- A Python value as seen by `config.py`: a dict or an opaque non-dict. -/
inductive PyVal where
  | atom : Nat → PyVal
  | dict : List (String × PyVal) → PyVal
deriving Repr

/-- The contents of a Python dict, in insertion order. -/
abbrev PObj := List (String × PyVal)

/-- Python `d[k]` read / `k in d` test: first binding of `k`, if any. -/
def assocGet : PObj → String → Option PyVal
  | [], _ => none
  | (k', v) :: rest, k => if k' = k then some v else assocGet rest k

/-- Python `d[k] = v`: replace the binding in place if the key exists
(keeping its position, as dicts keep insertion order), else append. -/
def assocSet : PObj → String → PyVal → PObj
  | [], k, v => [(k, v)]
  | (k', v') :: rest, k, v =>
      if k' = k then (k, v) :: rest else (k', v') :: assocSet rest k v

/-- `config._deep_copy`: copy a dict, recursively copying the values
that are dicts and keeping every other value as is. -/
def deep_copy_obj : PObj → PObj
  | [] => []
  | (k, PyVal.dict l) :: rest => (k, PyVal.dict (deep_copy_obj l)) :: deep_copy_obj rest
  | (k, PyVal.atom a) :: rest => (k, PyVal.atom a) :: deep_copy_obj rest
termination_by l => sizeOf l

mutual

/-- `config._deep_merge`: deep-copy `base`, then fold the items of
`overlay` over it. -/
def deep_merge (base overlay : PObj) : PObj :=
  mergeItems (deep_copy_obj base) overlay
termination_by sizeOf overlay + 1

/-- The `for key, value in overlay.items()` loop of `_deep_merge`: when
both the current value and the overlay value are dicts, merge
recursively; otherwise the overlay value replaces the current one. -/
def mergeItems (result : PObj) : PObj → PObj
  | [] => result
  | (k, v) :: rest =>
    match assocGet result k, v with
    | some (PyVal.dict bd), PyVal.dict od =>
        mergeItems (assocSet result k (PyVal.dict (deep_merge bd od))) rest
    | _, _ => mergeItems (assocSet result k v) rest
termination_by l => sizeOf l

end

/-! ## `config.get` (dot-notation lookup) -/

/-- Python `key_path.split(".")` (on the separator string `"."`): the
empty string splits to `[""]`, consecutive dots produce empty
segments. -/
def splitDotAux : List Char → List Char → List String
  | [], cur => [String.mk cur.reverse]
  | c :: rest, cur =>
      if c = '.' then String.mk cur.reverse :: splitDotAux rest []
      else splitDotAux rest (c :: cur)

/-- Python `s.split(".")`. -/
def splitDot (s : String) : List String :=
  splitDotAux s.data []

/-- The `for key in keys` traversal loop of `config.get`: descend while
the current value is a dict containing the key, otherwise return the
default. -/
def lookupLoop : PyVal → List String → PyVal → PyVal
  | value, [], _ => value
  | PyVal.dict l, k :: rest, dflt =>
      match assocGet l k with
      | some v => lookupLoop v rest dflt
      | none => dflt
  | PyVal.atom a, _ :: _, dflt =>
      -- `isinstance(value, dict)` is false: return the default
      match a with | _ => dflt

/-- `config.get(key_path, default)`, with the configuration dict passed
explicitly (the code reads it from the module-level cache). -/
def config_get (config : PObj) (key_path : String) (default : PyVal) : PyVal :=
  lookupLoop (PyVal.dict config) (splitDot key_path) default

/-- Declarative path lookup: follow the segments through nested dicts,
`none` as soon as a segment is missing or a non-dict is reached early. -/
def lookupPath : PyVal → List String → Option PyVal
  | v, [] => some v
  | PyVal.dict l, k :: rest =>
      match assocGet l k with
      | some v => lookupPath v rest
      | none => none
  | PyVal.atom _, _ :: _ => none

/-! ## `reply_processor.classify_reply` (response parsing)

The two `re.search` calls on the model's response text are modelled by
a leftmost scan (`scanFirst`) trying an anchored matcher at every start
position, exactly as `re.search` does. -/

/-- Python regex `\s` (ASCII whitespace characters). -/
def pySpace (c : Char) : Bool :=
  c = ' ' || c = '\t' || c = '\n' || c = '\r' || c = '\x0b' || c = '\x0c'

/-- Match the literal `lit` at the front of `l`, returning the rest. -/
def dropLit : List Char → List Char → Option (List Char)
  | [], l => some l
  | c :: cs, x :: xs => if x = c then dropLit cs xs else none
  | _ :: _, [] => none

/-- Try `CLASSIFICATION:\s*(APPROVE|REVISE|UNCLEAR)` anchored at the
front of `l`.  The three alternatives start with non-whitespace
letters, so the greedy `\s*` never has to backtrack: it always consumes
the maximal whitespace run. -/
def tryClassAt (l : List Char) : Option String :=
  match dropLit "CLASSIFICATION:".data l with
  | none => none
  | some rest =>
    let rest := rest.dropWhile pySpace
    if "APPROVE".data.isPrefixOf rest then some "APPROVE"
    else if "REVISE".data.isPrefixOf rest then some "REVISE"
    else if "UNCLEAR".data.isPrefixOf rest then some "UNCLEAR"
    else none

/-- Backtracking match of `\s*(.+)` anchored at the front of the list
(the part of `FEEDBACK:\s*(.+)` after the literal): the greedy `\s*`
prefers to consume a whitespace character and match further right; when
that fails, `.` consumes the character itself provided it is not a
newline, and `(.+)` then extends greedily to the end of the line. -/
def fbScan : List Char → Option (List Char)
  | [] => none
  | c :: cs =>
    if pySpace c then
      match fbScan cs with
      | some r => some r
      | none =>
          if c ≠ '\n' then some (c :: cs.takeWhile (fun x => x ≠ '\n')) else none
    else
      if c ≠ '\n' then some (c :: cs.takeWhile (fun x => x ≠ '\n')) else none

/-- Try `FEEDBACK:\s*(.+)` anchored at the front of `l`, returning the
captured group. -/
def tryFeedbackAt (l : List Char) : Option (List Char) :=
  match dropLit "FEEDBACK:".data l with
  | none => none
  | some rest => fbScan rest

/-- `re.search`: try the anchored matcher `f` at every start position,
left to right, returning the first hit. -/
def scanFirst {α : Type} (f : List Char → Option α) : List Char → Option α
  | [] => f []
  | c :: rest =>
    match f (c :: rest) with
    | some r => some r
    | none => scanFirst f rest

/-- Python `s.strip()` (on the captured feedback group). -/
def pyStrip (l : List Char) : String :=
  String.mk (((l.dropWhile pySpace).reverse.dropWhile pySpace).reverse)

/-- The response-parsing tail of `classify_reply` (lines 307-319): the
classification extracted by the first regex (defaulting to
`"UNCLEAR"`), and the stripped feedback extracted by the second
(defaulting to `""`). -/
def parse_reply_response (response_text : String) : String × String :=
  let classification :=
    match scanFirst tryClassAt response_text.data with
    | some r => r
    | none => "UNCLEAR"
  let feedback :=
    match scanFirst tryFeedbackAt response_text.data with
    | some cap => pyStrip cap
    | none => ""
  (classification, feedback)

/-! ## `reply_processor` actions and `process_replies`

The filesystem and Gmail side effects are modelled by an explicit state:
the periodic-summaries directory listing (filenames with modification
times), the pending-feedback store, the ledger of sent confirmation
emails, and the set of message ids marked read.  The external model
call inside `classify_reply` is a parameter `respond` mapping the reply
body to the response text, which is then parsed by
`parse_reply_response`. -/

/-- One unread reply as returned by `get_unread_replies`. -/
structure Reply where
  id : String
  subject : String
  sender : String
  body : String
deriving DecidableEq, Repr

/-- The mutable world `process_replies` acts on. -/
structure RPState where
  summaries : List (String × Nat)
  pendingFeedback : List String
  sent : List (String × String)
  readIds : List String
deriving DecidableEq, Repr

/-- Check whether `pat` occurs as a contiguous run inside `l`. -/
def listInfix (pat : List Char) : List Char → Bool
  | [] => pat.isPrefixOf []
  | c :: rest => pat.isPrefixOf (c :: rest) || listInfix pat rest

/-- Strip the literal suffix `suf` from `l`, if present. -/
def dropSuffixLit (l suf : List Char) : Option (List Char) :=
  if suf.isSuffixOf l then some (l.take (l.length - suf.length)) else none

/-- The glob `*-SUMMARY-*-DRAFT.md` used by `finalize_draft`: the name
ends in `-DRAFT.md` and contains `-SUMMARY-` before that suffix. -/
def globDraftMatch (name : String) : Bool :=
  match dropSuffixLit name.data "-DRAFT.md".data with
  | some p => listInfix "-SUMMARY-".data p
  | none => false

/-- Python `s.replace(old, new)` on character lists: replace every
non-overlapping occurrence, scanning left to right.  (Dropping
`old.length - 1` from `rest` is dropping `old.length` from `c ::
rest`.) -/
def listReplace (old new : List Char) : List Char → List Char
  | [] => []
  | c :: rest =>
    if old.isPrefixOf (c :: rest) then
      new ++ listReplace old new (rest.drop (old.length - 1))
    else c :: listReplace old new rest
termination_by l => l.length
decreasing_by
  all_goals simp_wf
  all_goals omega

/-- New name of a finalized draft: `stem.replace("-DRAFT", "") + ".md"`
where `stem` is the filename without its `.md` extension. -/
def finalizedName (name : String) : String :=
  match dropSuffixLit name.data ".md".data with
  | some stem => String.mk (listReplace "-DRAFT".data [] stem) ++ ".md"
  | none => String.mk (listReplace "-DRAFT".data [] name.data) ++ ".md"

/-- Replace the first file named `old` in a listing by `new` (the
`draft_path.rename(final_path)` step), keeping its position. -/
def renameFile (old new : String) : List (String × Nat) → List (String × Nat)
  | [] => []
  | (nm, t) :: rest =>
      if nm = old then (new, t) :: rest else (nm, t) :: renameFile old new rest

/-- `reply_processor.finalize_draft` on a summaries listing: glob the
drafts, sort by modification time (most recent first), rename the most
recent draft dropping `-DRAFT`; `false` when there is no draft. -/
def finalize_draft (files : List (String × Nat)) : Bool × List (String × Nat) :=
  let drafts := files.filter (fun f => globDraftMatch f.1)
  match sortBy (fun a b => b.2 ≤ a.2) drafts with
  | [] => (false, files)
  | d :: _ => (true, renameFile d.1 (finalizedName d.1) files)

/-- Subject of the confirmation email sent by `send_confirmation_email`
for each classification. -/
def confSubject (classification : String) : String :=
  if classification = "APPROVE" then "[Work Journal] Summary Approved"
  else if classification = "REVISE" then "[Work Journal] Feedback Received"
  else "[Work Journal] Clarification Needed"

/-- The body of one iteration of the `for reply in replies` loop of
`process_replies`: classify, act on the classification, send the
confirmation, mark the reply read. -/
def processOne (respond : String → String) (st : RPState) (r : Reply) : RPState :=
  let cls := parse_reply_response (respond r.body)
  let st1 :=
    if cls.1 = "APPROVE" then
      { st with summaries := (finalize_draft st.summaries).2 }
    else if cls.1 = "REVISE" then
      { st with pendingFeedback := st.pendingFeedback ++ [cls.2] }
    else st
  { st1 with
    sent := st1.sent ++ [(confSubject cls.1, cls.2)],
    readIds := st1.readIds ++ [r.id] }

/-- `reply_processor.process_replies`, with the fetched unread replies
and the external model passed explicitly: process each reply in order
and return how many were processed together with the final state. -/
def process_replies (respond : String → String) (replies : List Reply)
    (st : RPState) : Nat × RPState :=
  (replies.length, replies.foldl (processOne respond) st)

/-! ## `heartbeat.auto_wrapup` -/

/-- Two right-aligned decimal digits (month/day part of `isoformat`). -/
def pad2 (n : Nat) : String :=
  String.mk [Char.ofNat (48 + n / 10 % 10), Char.ofNat (48 + n % 10)]

/-- Four right-aligned decimal digits (year part of `isoformat`). -/
def pad4 (n : Nat) : String :=
  String.mk [Char.ofNat (48 + n / 1000 % 10), Char.ofNat (48 + n / 100 % 10),
    Char.ofNat (48 + n / 10 % 10), Char.ofNat (48 + n % 10)]

/-- Python `date.isoformat()`: `YYYY-MM-DD`. -/
def isoformat (d : PyDate) : String :=
  pad4 d.year ++ "-" ++ pad2 d.month ++ "-" ++ pad2 d.day

/-- First binding of a string key in a directory listing (a `Path`
read: `filepath.read_text()` guarded by `filepath.exists()`). -/
def assocFind {α : Type} : List (String × α) → String → Option α
  | [], _ => none
  | (k', v) :: rest, k => if k' = k then some v else assocFind rest k

/-- Write a file (`write_text` creates or overwrites), keeping the
position of an existing file of that name. -/
def assocPut {α : Type} : List (String × α) → String → α → List (String × α)
  | [], k, v => [(k, v)]
  | (k', v') :: rest, k, v =>
      if k' = k then (k, v) :: rest else (k', v') :: assocPut rest k v

/-- Delete a file (`Path.unlink`). -/
def removeFile {α : Type} : List (String × α) → String → List (String × α)
  | [], _ => []
  | (k', v) :: rest, k => if k' = k then rest else (k', v) :: removeFile rest k

/-- The directories `auto_wrapup` touches: the checkpoint staging
directory and the daily-entries directory, as name-to-content maps. -/
structure HeartbeatFS where
  staging : List (String × String)
  entries : List (String × String)
deriving DecidableEq, Repr

/-- `heartbeat.auto_wrapup`, with the filesystem passed explicitly and
the Claude call `synthesize_journal_from_checkpoints` abstracted as
`synth` (its arguments are the checkpoint content and the target
date).  Mirrors the source exactly: `if not checkpoint_content` and
`if existing_journal` are truthiness tests, so an empty file counts as
absent. -/
def auto_wrapup (synth : String → PyDate → String) (fs : HeartbeatFS)
    (target : PyDate) : Bool × HeartbeatFS :=
  let checkpointName := isoformat target ++ "-checkpoints.md"
  let entryName := isoformat target ++ ".md"
  match assocFind fs.staging checkpointName with
  | none => (false, fs)
  | some content =>
    if content = "" then (false, fs)
    else
      match assocFind fs.entries entryName with
      | some j =>
        if j = "" then
          -- `read_journal_entry` returned the falsy `""`: synthesize and
          -- overwrite the (empty) manual entry
          (true, { staging := removeFile fs.staging checkpointName,
                   entries := assocPut fs.entries entryName (synth content target) })
        else
          -- journal exists: just clear the stale checkpoint
          (true, { fs with staging := removeFile fs.staging checkpointName })
      | none =>
          (true, { staging := removeFile fs.staging checkpointName,
                   entries := assocPut fs.entries entryName (synth content target) })

/-! ## `main.main` -/

/-- The parsed command-line arguments of `main.parse_args`. -/
structure Args where
  dry_run : Bool
  days : Nat
  force : Bool
  no_email : Bool
  check_replies : Bool
deriving DecidableEq, Repr

/-- Outcome of the `generate_summary(entries)` call site in `main`:
either the summary text, or one of the two exceptions `main`
catches. -/
inductive GenOutcome where
  | ok : String → GenOutcome
  | fileNotFound : GenOutcome
  | apiError : String → GenOutcome
deriving DecidableEq, Repr

/-- Everything a run of `main` observes from the outside world. -/
structure MainEnv where
  args : Args
  needs_summary : Bool
  entries : List JEntry
  gen : GenOutcome
  email_ok : Bool
  replies_processed : Nat
deriving DecidableEq, Repr

/-- Whether the summary-generation call raised. -/
def isGenFailure : GenOutcome → Bool
  | .ok _ => false
  | .fileNotFound => true
  | .apiError _ => true

/-- `main.main` as a function from the observed environment to the
process exit code, following the source's control flow line by line. -/
def main (env : MainEnv) : Nat :=
  if env.args.check_replies then
    -- reply-processing mode: `return 0 if processed >= 0 else 1`
    if env.replies_processed ≥ 0 then 0 else 1
  else if !env.args.force && !env.needs_summary then
    0  -- a recent summary exists: skip
  else if env.entries.isEmpty then
    1  -- "No journal entries found in the specified period."
  else if env.args.dry_run then
    0
  else
    match env.gen with
    | .fileNotFound => 1
    | .apiError _ => 1
    | .ok _ =>
      -- draft saved; email failure only prints a warning, both email
      -- branches fall through to `return 0`
      if env.args.no_email then 0
      else if env.email_ok then 0 else 0

/-! ## A heap model for the mutation claims about `_deep_merge`

The pure association-list model above cannot express "does not mutate
its arguments", so `_deep_copy` and `_deep_merge` are embedded a second
time against an explicit heap of dict objects.  A dict value is a
reference (`HVal.ref`) to a heap address; non-dict values are opaque
atoms, so `isinstance(value, dict)` is the test for the `ref`
constructor.  Allocation hands out increasing addresses; writes prepend
a new binding, and `Heap.lookup` reads the most recent one.  The
functions take a fuel argument because an (unreachable in `config.py`,
where dicts come from YAML) cyclic dict would make the Python originals
run forever.  The only deviation from Python's evaluation order is that
a copied dict is allocated after its slots are copied rather than
before, which renumbers addresses but changes no object's contents. -/

/-- Heap addresses (Python object identities of dicts). -/
abbrev Addr := Nat

/-- A Python value stored in a dict slot: an opaque non-dict, or a
reference to a dict object on the heap. -/
inductive HVal where
  | atom : Nat → HVal
  | ref : Addr → HVal
deriving DecidableEq, Repr

/-- The slots of one dict object, in insertion order. -/
abbrev HObj := List (String × HVal)

/-- A heap of dict objects and the next fresh address. -/
structure Heap where
  objs : List (Addr × HObj)
  next : Addr
deriving DecidableEq, Repr

/-- Read the current contents of address `a` (most recent write). -/
def lookupObjs : List (Addr × HObj) → Addr → Option HObj
  | [], _ => none
  | (a', o) :: rest, a => if a' = a then some o else lookupObjs rest a

/-- Read the object at address `a`. -/
def Heap.lookup (h : Heap) (a : Addr) : Option HObj :=
  lookupObjs h.objs a

/-- Allocate a fresh dict object (Python `{}` plus filling it). -/
def Heap.alloc (h : Heap) (o : HObj) : Heap × Addr :=
  (⟨(h.next, o) :: h.objs, h.next + 1⟩, h.next)

/-- Overwrite the object at address `a` (a `result[key] = ...` store). -/
def Heap.write (h : Heap) (a : Addr) (o : HObj) : Heap :=
  ⟨(a, o) :: h.objs, h.next⟩

mutual

/-- `config._deep_copy` on the heap: read the dict at `r`, copy its
slots (recursively copying dict values), allocate the copy. -/
def deep_copyH : Nat → Heap → Addr → Option (Heap × Addr)
  | 0, _, _ => none
  | fuel + 1, h, r =>
    match h.lookup r with
    | none => none
    | some obj =>
      match copySlots fuel h obj with
      | none => none
      | some (h₁, slots) => some (h₁.alloc slots)
termination_by fuel _ _ => (fuel, 0)

/-- The `for key, value in d.items()` loop of `_deep_copy`. -/
def copySlots : Nat → Heap → HObj → Option (Heap × HObj)
  | _, h, [] => some (h, [])
  | fuel, h, (k, v) :: rest =>
    match copyVal fuel h v with
    | none => none
    | some (h₁, v') =>
      match copySlots fuel h₁ rest with
      | none => none
      | some (h₂, rest') => some (h₂, (k, v') :: rest')
termination_by fuel _ obj => (fuel, sizeOf obj)

/-- Copy one slot value: dicts are copied recursively, everything else
is kept as the same value. -/
def copyVal : Nat → Heap → HVal → Option (Heap × HVal)
  | _, h, HVal.atom n => some (h, HVal.atom n)
  | fuel, h, HVal.ref r =>
    match deep_copyH fuel h r with
    | none => none
    | some (h', r') => some (h', HVal.ref r')
termination_by fuel _ v => (fuel, sizeOf v)

end

mutual

/-- `config._deep_merge` on the heap: `result = _deep_copy(base)`, then
fold the overlay's items over `result`. -/
def deep_mergeH : Nat → Heap → Addr → Addr → Option (Heap × Addr)
  | 0, _, _, _ => none
  | fuel + 1, h, base, overlay =>
    match deep_copyH (fuel + 1) h base with
    | none => none
    | some (h₁, res) =>
      match h₁.lookup overlay with
      | none => none
      | some ovObj => mergeSlots fuel h₁ res ovObj
termination_by fuel _ _ _ => (fuel, 0)

/-- The `for key, value in overlay.items()` loop of `_deep_merge`,
mutating the `result` object at address `res`. -/
def mergeSlots : Nat → Heap → Addr → HObj → Option (Heap × Addr)
  | _, h, res, [] => some (h, res)
  | fuel, h, res, (k, v) :: rest =>
    match h.lookup res with
    | none => none
    | some resObj =>
      match assocFind resObj k, v with
      | some (HVal.ref br), HVal.ref ov =>
        -- both are dicts: `result[key] = _deep_merge(result[key], value)`
        match deep_mergeH fuel h br ov with
        | none => none
        | some (h₁, m) =>
          match h₁.lookup res with
          | none => none
          | some resObj₁ =>
              mergeSlots fuel (h₁.write res (assocPut resObj₁ k (HVal.ref m))) res rest
      | _, _ =>
          -- replace the value: `result[key] = value`
          mergeSlots fuel (h.write res (assocPut resObj k v)) res rest
termination_by fuel _ _ l => (fuel, sizeOf l)

end

/-- The merging spine of `config.load_config` (lines 124-142): deep-copy
`DEFAULT_CONFIG`, then deep-merge the parsed user config over it when
the YAML file exists, parses, and is truthy (`userCfg = some u`); on a
missing or unparsable or empty file the copied defaults are returned
unchanged. -/
def load_configH (fuel : Nat) (h : Heap) (defaultCfg : Addr)
    (userCfg : Option Addr) : Option (Heap × Addr) :=
  match deep_copyH fuel h defaultCfg with
  | none => none
  | some (h₁, config) =>
    match userCfg with
    | none => some (h₁, config)
    | some u =>
      match deep_mergeH fuel h₁ config u with
      | none => none
      | some (h₂, config') => some (h₂, config')

/-! ## Spec-side selectors used in the theorems for C5 and C7 -/

/-- Which entry, if any, `gather_entries` keeps for a directory file:
the name parses under the date pattern and the date is on or after the
cutoff. -/
def gatherPick (cutoff : PyDate) (f : String × String) : Option JEntry :=
  match parse_date_from_filename f.1 with
  | .ok (some dt) => if dateLeB cutoff dt then some ⟨dt, f.1, f.2⟩ else none
  | _ => none

/-- Which date, if any, `check_stale_staging` keeps for a staging file:
the name matches the checkpoint pattern, the captures form a valid
date, and that date is strictly before today. -/
def stalePick (today : PyDate) (f : String) : Option PyDate :=
  match checkpointNameMatch f with
  | some (y, m, d) =>
    match date_new y m d with
    | .ok dt => if dateLtB dt today then some dt else none
    | .error _ => none
  | none => none

/-- The value one overlay item `(k, v)` stores into `result` in the
`_deep_merge` loop: the recursive merge when both sides are dicts, the
overlay value otherwise. -/
def mergeValue (res : PObj) (k : String) (v : PyVal) : PyVal :=
  match assocGet res k, v with
  | some (PyVal.dict bd), PyVal.dict od => PyVal.dict (deep_merge bd od)
  | _, _ => v

/-! # Theorems

First the supporting lemmas, then one theorem per claim (with its
witness or counterexample where required). -/

/-! ## Association-list lemmas -/

theorem assocGet_assocSet_self (l : PObj) (k : String) (v : PyVal) :
    assocGet (assocSet l k v) k = some v := by
  induction l with
  | nil => simp [assocSet, assocGet]
  | cons p rest ih =>
    obtain ⟨k', v'⟩ := p
    by_cases h : k' = k
    · simp [assocSet, assocGet, h]
    · simp [assocSet, assocGet, h, ih]

theorem assocGet_assocSet_ne (l : PObj) (k k' : String) (v : PyVal)
    (h : k' ≠ k) : assocGet (assocSet l k' v) k = assocGet l k := by
  induction l with
  | nil => simp [assocSet, assocGet, h]
  | cons p rest ih =>
    obtain ⟨k'', v''⟩ := p
    by_cases h2 : k'' = k'
    · subst h2
      simp [assocSet, assocGet, h]
    · simp [assocSet, assocGet, h2, ih]

theorem assocGet_eq_none_of_not_mem (l : PObj) (k : String)
    (h : k ∉ l.map Prod.fst) : assocGet l k = none := by
  induction l with
  | nil => simp [assocGet]
  | cons p rest ih =>
    obtain ⟨k', v'⟩ := p
    simp only [List.map_cons, List.mem_cons] at h
    push_neg at h
    have hne : k' ≠ k := fun hh => h.1 hh.symm
    simp [assocGet, hne, ih h.2]

/-! ## `_deep_copy` is (extensionally) the identity -/

theorem deep_copy_obj_id (l : PObj) : deep_copy_obj l = l := by
  induction l using deep_copy_obj.induct with
  | case1 => simp [deep_copy_obj]
  | case2 k d rest ihd ihr => simp [deep_copy_obj, ihd, ihr]
  | case3 k a rest ihr => simp [deep_copy_obj, ihr]

/-! ## The lookup characterisation of `_deep_merge` -/

theorem mergeValue_congr (r1 r2 : PObj) (k : String) (v : PyVal)
    (h : assocGet r1 k = assocGet r2 k) : mergeValue r1 k v = mergeValue r2 k v := by
  simp [mergeValue, h]

theorem mergeItems_cons (res : PObj) (k : String) (v : PyVal) (rest : PObj) :
    mergeItems res ((k, v) :: rest) =
      mergeItems (assocSet res k (mergeValue res k v)) rest := by
  rw [mergeItems.eq_def]
  rcases hg : assocGet res k with _ | w
  · cases v <;> simp [mergeValue, hg]
  · cases w <;> cases v <;> simp [mergeValue, hg]

theorem mergeItems_get (o : PObj) : ∀ res : PObj, ∀ k : String,
    (o.map Prod.fst).Nodup →
    assocGet (mergeItems res o) k =
      match assocGet o k with
      | none => assocGet res k
      | some v => some (mergeValue res k v) := by
  induction o with
  | nil =>
    intro res k _
    simp [mergeItems.eq_1, assocGet]
  | cons p rest ih =>
    intro res k hnd
    obtain ⟨k', v⟩ := p
    simp only [List.map_cons, List.nodup_cons] at hnd
    rw [mergeItems_cons, ih _ k hnd.2]
    by_cases hk : k' = k
    · have hknd : k ∉ List.map Prod.fst rest := by
        rw [← hk]
        exact hnd.1
      have hrest : assocGet rest k = none :=
        assocGet_eq_none_of_not_mem rest k hknd
      simp [assocGet, hk, hrest, assocGet_assocSet_self]
    · have hset : assocGet (assocSet res k' (mergeValue res k' v)) k =
          assocGet res k := assocGet_assocSet_ne res k k' _ hk
      rcases hrest : assocGet rest k with _ | w
      · simp [assocGet, hk, hrest, hset]
      · simp [assocGet, hk, hrest, mergeValue_congr _ _ k w hset]

theorem deep_merge_get (b o : PObj) (k : String)
    (ho : (o.map Prod.fst).Nodup) :
    assocGet (deep_merge b o) k =
      match assocGet o k with
      | none => assocGet b k
      | some v => some (mergeValue b k v) := by
  rw [deep_merge, deep_copy_obj_id] at *
  exact mergeItems_get o b k ho

/-- C2: `_deep_merge(base, overlay)` is the recursive dictionary merge:
at every key, a key only in `base` keeps `base`'s value, a key in
`overlay` whose values on both sides are dicts maps to the recursive
merge of the two dicts, and any other key in `overlay` maps to
`overlay`'s value; the key set of the result is the union of the two
key sets. -/
theorem deep_merge_spec (b o : PObj) (k : String)
    (_hb : (b.map Prod.fst).Nodup) (ho : (o.map Prod.fst).Nodup) :
    (assocGet (deep_merge b o) k =
      match assocGet o k, assocGet b k with
      | none, rb => rb
      | some (PyVal.dict od), some (PyVal.dict bd) =>
          some (PyVal.dict (deep_merge bd od))
      | some vo, _ => some vo) ∧
    ((assocGet (deep_merge b o) k).isSome
      ↔ ((assocGet b k).isSome ∨ (assocGet o k).isSome)) := by
  have h := deep_merge_get b o k ho
  rcases hgo : assocGet o k with _ | vo
  · rw [hgo] at h
    constructor
    · simpa using h
    · simp [h]
  · rw [hgo] at h
    constructor
    · rcases hgb : assocGet b k with _ | vb
      · cases vo <;> simp [h, mergeValue, hgb]
      · cases vb <;> cases vo <;> simp [h, mergeValue, hgb]
    · simp [h]

theorem deep_merge_spec_witness :
    assocGet (deep_merge [("a", PyVal.atom 1), ("b", PyVal.atom 5)]
      [("a", PyVal.atom 2)]) "a" = some (PyVal.atom 2) := by
  have h := (deep_merge_spec [("a", PyVal.atom 1), ("b", PyVal.atom 5)]
    [("a", PyVal.atom 2)] "a" (by decide) (by decide)).1
  simpa [assocGet] using h

/-! ## C10: dot-notation config lookup -/

theorem lookupLoop_eq_lookupPath (keys : List String) : ∀ v dflt : PyVal,
    lookupLoop v keys dflt = (lookupPath v keys).getD dflt := by
  induction keys with
  | nil =>
    intro v dflt
    simp [lookupLoop, lookupPath]
  | cons k rest ih =>
    intro v dflt
    cases v with
    | atom a => simp [lookupLoop, lookupPath]
    | dict l =>
      rcases hg : assocGet l k with _ | w
      · simp [lookupLoop, lookupPath, hg]
      · simp [lookupLoop, lookupPath, hg, ih]

/-- C10: `config.get` is total and never raises: it splits `key_path`
on dots and traverses the configuration dict segment by segment,
returning the value reached when every segment is a key of a dict at
that level, and the given default in every other case (missing key, or
a non-dict value met before the last segment).  Totality is the fact
that `config_get` is a Lean function defined on all inputs with no
error outcome in its type. -/
theorem config_get_spec (config : PObj) (key_path : String) (default : PyVal) :
    config_get config key_path default =
      (lookupPath (PyVal.dict config) (splitDot key_path)).getD default :=
  lookupLoop_eq_lookupPath (splitDot key_path) (PyVal.dict config) default

/-! ## C4: exit codes of `main` -/

/-- C4 counterexample: a summary-mode run in which every step succeeds
except sending the email still returns exit code 0 (the code prints
"Warning: Email failed to send, but draft was saved locally." and falls
through to `return 0`), contradicting the claim that a failure of the
email-sending step yields a nonzero exit code. -/
theorem main_email_failure_exits_zero :
    (let env : MainEnv :=
      { args := { dry_run := false, days := 14, force := false,
                  no_email := false, check_replies := false },
        needs_summary := true,
        entries := [⟨⟨2026, 1, 7⟩, "2026-01-07.md", "content"⟩],
        gen := GenOutcome.ok "summary text",
        email_ok := false,
        replies_processed := 0 };
    env.args.check_replies = false ∧ env.args.no_email = false ∧
      env.email_ok = false ∧ env.entries ≠ [] ∧
      isGenFailure env.gen = false ∧ main env = 0) := by
  refine ⟨rfl, rfl, rfl, by simp, rfl, rfl⟩

/-- C4 (corrected): in summary mode `main` returns only 0 or 1, and it
returns 1 exactly when the run proceeds past the skip check (`--force`
or a summary is due) and then either no entries are found or the
summary-generation call raises; the skip, dry-run and
successful-summary paths return 0, and a failed email send also
returns 0 (it only prints a warning, the draft having been saved). -/
theorem main_exit_spec (env : MainEnv)
    (hmode : env.args.check_replies = false) :
    (main env = 0 ∨ main env = 1) ∧
    (main env = 1 ↔
      ((env.args.force = true ∨ env.needs_summary = true) ∧
        (env.entries = [] ∨
          (env.args.dry_run = false ∧ isGenFailure env.gen = true)))) := by
  obtain ⟨⟨dr, days, fo, ne, cr⟩, ns, es, gen, eo, rp⟩ := env
  simp only at hmode
  subst hmode
  cases fo <;> cases ns <;> cases dr <;> cases es <;> cases gen <;> cases ne <;>
    simp [main, isGenFailure]

theorem main_exit_spec_witness :
    (let env : MainEnv :=
      { args := { dry_run := false, days := 14, force := false,
                  no_email := true, check_replies := false },
        needs_summary := true,
        entries := [],
        gen := GenOutcome.ok "s",
        email_ok := true,
        replies_processed := 0 };
    main env = 0 ∨ main env = 1) :=
  (main_exit_spec _ rfl).1

/-! ## C1: `parse_date_from_filename` -/

theorem readDigits_append (pre : List Char) : ∀ (acc : Nat) (rest : List Char),
    (∀ c ∈ pre, c.isDigit) →
    readDigits pre.length acc (pre ++ rest) =
      some (pre.foldl (fun a c => a * 10 + (c.toNat - 48)) acc, rest) := by
  induction pre with
  | nil => intro acc rest _; simp [readDigits]
  | cons c cs ih =>
    intro acc rest hdig
    have hc : c.isDigit := hdig c (by simp)
    simp only [List.length_cons, List.cons_append, readDigits, hc, if_true,
      List.foldl_cons]
    exact ih _ rest (fun x hx => hdig x (by simp [hx]))

theorem readDigits_sound : ∀ (n : Nat) (acc : Nat) (cs : List Char)
    (v : Nat) (rest : List Char), readDigits n acc cs = some (v, rest) →
    ∃ pre, cs = pre ++ rest ∧ pre.length = n ∧ (∀ c ∈ pre, c.isDigit) ∧
      v = pre.foldl (fun a c => a * 10 + (c.toNat - 48)) acc := by
  intro n
  induction n with
  | zero =>
    intro acc cs v rest h
    simp only [readDigits, Option.some.injEq, Prod.mk.injEq] at h
    exact ⟨[], by simp [h.1, h.2], rfl, by simp, by simp [h.1]⟩
  | succ n ih =>
    intro acc cs v rest h
    cases cs with
    | nil => simp [readDigits] at h
    | cons c cs' =>
      simp only [readDigits] at h
      by_cases hc : c.isDigit
      · rw [if_pos hc] at h
        obtain ⟨pre', heq, hlen, hdig, hval⟩ := ih _ cs' v rest h
        exact ⟨c :: pre', by simp [heq], by simp [hlen],
          by
            intro x hx
            rcases List.mem_cons.mp hx with hx | hx
            · exact hx ▸ hc
            · exact hdig x hx,
          by simp [hval]⟩
      · rw [if_neg hc] at h
        exact absurd h (by simp)

theorem matchYMD_complete (ys ms ds rest : List Char)
    (h4 : ys.length = 4) (h2 : ms.length = 2) (h2' : ds.length = 2)
    (hd4 : ∀ c ∈ ys, c.isDigit) (hd2 : ∀ c ∈ ms, c.isDigit)
    (hd2' : ∀ c ∈ ds, c.isDigit) :
    matchYMD (ys ++ '-' :: (ms ++ '-' :: (ds ++ rest))) =
      some (digitsToNat ys, digitsToNat ms, digitsToNat ds, rest) := by
  have r1 := readDigits_append ys 0 ('-' :: (ms ++ '-' :: (ds ++ rest))) hd4
  have r2 := readDigits_append ms 0 ('-' :: (ds ++ rest)) hd2
  have r3 := readDigits_append ds 0 rest hd2'
  rw [h4] at r1
  rw [h2] at r2
  rw [h2'] at r3
  simp only [matchYMD, r1, r2, r3, digitsToNat]

theorem matchYMD_sound (cs : List Char) (y m d : Nat) (rest : List Char)
    (h : matchYMD cs = some (y, m, d, rest)) :
    ∃ ys ms ds, cs = ys ++ '-' :: (ms ++ '-' :: (ds ++ rest)) ∧
      ys.length = 4 ∧ ms.length = 2 ∧ ds.length = 2 ∧
      (∀ c ∈ ys, c.isDigit) ∧ (∀ c ∈ ms, c.isDigit) ∧ (∀ c ∈ ds, c.isDigit) ∧
      y = digitsToNat ys ∧ m = digitsToNat ms ∧ d = digitsToNat ds := by
  simp only [matchYMD] at h
  rcases h1 : readDigits 4 0 cs with _ | ⟨y', cs₁⟩
  · rw [h1] at h; simp at h
  · rw [h1] at h
    cases cs₁ with
    | nil => simp at h
    | cons a cs₂ =>
      by_cases ha : a = '-'
      · subst ha
        simp only at h
        rcases h2 : readDigits 2 0 cs₂ with _ | ⟨m', cs₃⟩
        · rw [h2] at h; simp at h
        · rw [h2] at h
          cases cs₃ with
          | nil => simp at h
          | cons b cs₄ =>
            by_cases hb : b = '-'
            · subst hb
              simp only at h
              rcases h3 : readDigits 2 0 cs₄ with _ | ⟨d', rest'⟩
              · rw [h3] at h; simp at h
              · rw [h3] at h
                simp only [Option.some.injEq, Prod.mk.injEq] at h
                obtain ⟨hy, hm, hd, hrest⟩ := h
                obtain ⟨ys, hys, hys4, hysd, hysv⟩ :=
                  readDigits_sound 4 0 cs y' _ h1
                obtain ⟨ms, hms, hms2, hmsd, hmsv⟩ :=
                  readDigits_sound 2 0 cs₂ m' _ h2
                obtain ⟨ds, hds, hds2, hdsd, hdsv⟩ :=
                  readDigits_sound 2 0 cs₄ d' _ h3
                subst hrest
                refine ⟨ys, ms, ds, ?_, hys4, hms2, hds2, hysd, hmsd, hdsd,
                  by rw [← hy, hysv]; rfl, by rw [← hm, hmsv]; rfl,
                  by rw [← hd, hdsv]; rfl⟩
                rw [hys, hms, hds]
            · cases b
              simp_all
      · cases a
        simp_all

/-- C1 counterexample: the filename `"2026-13-99.md"` matches the regex
but its digit groups are not a valid calendar date, so the `date(...)`
call inside `parse_date_from_filename` raises `ValueError` instead of
returning — the function is not total and does not return `None` here,
contradicting the claim that it never raises. -/
theorem parse_date_invalid_raises :
    parse_date_from_filename "2026-13-99.md" =
      Except.error PyError.valueError := by rfl

/-- C1 (corrected): `parse_date_from_filename` returns
`date(y, m, d)` built from the three captured digit groups when the
filename matches `^(\d{4})-(\d{2})-(\d{2})\.md$` and the captures form
a valid calendar date, raises `ValueError` when the filename matches
but the captures are not a valid calendar date (e.g. `"2026-13-99.md"`),
and returns `None` for every string that does not match the regex. -/
theorem parse_date_spec (s : String) :
    (∀ y m d, journalShape s y m d →
      parse_date_from_filename s =
        (if dateValid y m d then Except.ok (some ⟨y, m, d⟩)
         else Except.error PyError.valueError)) ∧
    ((¬ ∃ y m d, journalShape s y m d) →
      parse_date_from_filename s = Except.ok none) := by
  constructor
  · rintro y m d ⟨ys, ms, ds, heq, h4, h2, h2', hd4, hd2, hd2', hy, hm, hd⟩
    have hmatch := matchYMD_complete ys ms ds ['.', 'm', 'd'] h4 h2 h2' hd4 hd2 hd2'
    rw [← heq] at hmatch
    subst hy hm hd
    simp only [parse_date_from_filename, hmatch, if_pos rfl, date_new]
    by_cases hv : dateValid (digitsToNat ys) (digitsToNat ms) (digitsToNat ds)
    · simp [hv]
    · simp [hv]
  · intro hnone
    rcases hm : matchYMD s.data with _ | ⟨y, m, d, rest⟩
    · simp [parse_date_from_filename, hm]
    · by_cases hr : rest = ['.', 'm', 'd']
      · exfalso
        apply hnone
        subst hr
        obtain ⟨ys, ms, ds, heq, h4, h2, h2', hd4, hd2, hd2', hy, hmv, hd⟩ :=
          matchYMD_sound s.data y m d _ hm
        exact ⟨y, m, d, ys, ms, ds, heq, h4, h2, h2', hd4, hd2, hd2', hy, hmv, hd⟩
      · simp [parse_date_from_filename, hm, hr]

theorem parse_date_spec_witness :
    parse_date_from_filename "2026-01-07.md" =
      Except.ok (some ⟨2026, 1, 7⟩) := by
  have hshape : journalShape "2026-01-07.md" 2026 1 7 :=
    ⟨['2', '0', '2', '6'], ['0', '1'], ['0', '7'], by decide⟩
  have h := (parse_date_spec "2026-01-07.md").1 2026 1 7 hshape
  rw [h]
  rfl

/-! ## Sorting lemmas -/

theorem insertSorted_perm {α : Type} (le : α → α → Bool) (x : α)
    (l : List α) : List.Perm (insertSorted le x l) (x :: l) := by
  induction l with
  | nil => simp [insertSorted]
  | cons y ys ih =>
    by_cases h : le x y = true
    · rw [insertSorted, if_pos h]
    · rw [insertSorted, if_neg h]
      exact (ih.cons y).trans (List.Perm.swap x y ys)

theorem insertSorted_pairwise {α : Type} (le : α → α → Bool)
    (htot : ∀ a b, le a b = true ∨ le b a = true)
    (htrans : ∀ a b c, le a b = true → le b c = true → le a c = true)
    (x : α) (l : List α) (hl : l.Pairwise (fun a b => le a b = true)) :
    (insertSorted le x l).Pairwise (fun a b => le a b = true) := by
  induction l with
  | nil => simp [insertSorted]
  | cons y ys ih =>
    rcases List.pairwise_cons.mp hl with ⟨hy, hys⟩
    by_cases h : le x y = true
    · rw [insertSorted, if_pos h]
      refine List.pairwise_cons.mpr ⟨?_, hl⟩
      intro z hz
      rcases List.mem_cons.mp hz with rfl | hz
      · exact h
      · exact htrans x y z h (hy z hz)
    · rw [insertSorted, if_neg h]
      have hyx : le y x = true := (htot x y).resolve_left h
      refine List.pairwise_cons.mpr ⟨?_, ih hys⟩
      intro z hz
      have hz' : z ∈ x :: ys := (insertSorted_perm le x ys).mem_iff.mp hz
      rcases List.mem_cons.mp hz' with rfl | hz'
      · exact hyx
      · exact hy z hz'

theorem sortBy_perm {α : Type} (le : α → α → Bool) (l : List α) :
    List.Perm (sortBy le l) l := by
  induction l with
  | nil => simp [sortBy]
  | cons x xs ih => exact (insertSorted_perm le x (sortBy le xs)).trans (ih.cons x)

theorem sortBy_pairwise {α : Type} (le : α → α → Bool)
    (htot : ∀ a b, le a b = true ∨ le b a = true)
    (htrans : ∀ a b c, le a b = true → le b c = true → le a c = true)
    (l : List α) : (sortBy le l).Pairwise (fun a b => le a b = true) := by
  induction l with
  | nil => simp [sortBy]
  | cons x xs ih => exact insertSorted_pairwise le htot htrans x _ ih

theorem dateLeB_total (a b : PyDate) : dateLeB a b = true ∨ dateLeB b a = true := by
  simp only [dateLeB, Bool.or_eq_true, Bool.and_eq_true, decide_eq_true_eq]
  omega

theorem dateLeB_trans (a b c : PyDate) (h1 : dateLeB a b = true)
    (h2 : dateLeB b c = true) : dateLeB a c = true := by
  simp only [dateLeB, Bool.or_eq_true, Bool.and_eq_true, decide_eq_true_eq] at *
  omega

/-! ## C5: `gather_entries` -/

theorem gatherLoop_ok (cutoff : PyDate) : ∀ (files : List (String × String))
    (res : List JEntry), gatherLoop cutoff files = .ok res →
    res = files.filterMap (gatherPick cutoff) := by
  intro files
  induction files with
  | nil =>
    intro res h
    simp only [gatherLoop, Except.ok.injEq] at h
    simp [← h]
  | cons f rest ih =>
    intro res h
    obtain ⟨nm, content⟩ := f
    rcases hp : parse_date_from_filename nm with e | dt?
    · simp only [gatherLoop, hp] at h
      exact Except.noConfusion h
    · cases dt? with
      | none =>
        simp only [gatherLoop, hp] at h
        rw [List.filterMap_cons]
        simp only [gatherPick, hp]
        exact ih res h
      | some dt =>
        rcases hr : gatherLoop cutoff rest with e | es
        · simp only [gatherLoop, hp, hr] at h
          exact Except.noConfusion h
        · simp only [gatherLoop, hp, hr, Except.ok.injEq] at h
          rw [List.filterMap_cons]
          simp only [gatherPick, hp]
          by_cases hc : dateLeB cutoff dt = true
          · rw [if_pos hc] at h
            rw [← h, ih es hr]
            simp [hc]
          · rw [if_neg hc] at h
            rw [← h, ih es hr]
            simp [hc]

/-- C5 counterexample: a directory listing containing the file
`"2026-13-99.md"` makes `gather_entries` raise `ValueError` (the date
parser raises inside the loop), so on this listing it does not return
the claimed list at all. -/
theorem gather_entries_invalid_raises :
    gather_entries [("2026-13-99.md", "x")] ⟨2026, 1, 10⟩ 14 =
      Except.error PyError.valueError := by rfl

/-- C5 (corrected): whenever `gather_entries` returns (which it does
unless some filename matches the digit pattern with invalid date
components, in which case `ValueError` propagates), the returned list
holds one entry (date, filename, content) for precisely those files of
the directory listing whose name matches the `YYYY-MM-DD.md` pattern
with a valid date on or after `today - timedelta(days=lookback_days)`,
and it is sorted by date ascending. -/
theorem gather_entries_spec (files : List (String × String)) (today : PyDate)
    (lookback : Nat) (res : List JEntry)
    (hok : gather_entries files today lookback = .ok res) :
    List.Perm res (files.filterMap (gatherPick (dateSubDays today lookback))) ∧
    res.Pairwise (fun a b => dateLeB a.date b.date = true) := by
  simp only [gather_entries] at hok
  rcases hl : gatherLoop (dateSubDays today lookback) files with e | es
  · rw [hl] at hok
    exact absurd hok (by simp)
  · rw [hl] at hok
    simp only [Except.ok.injEq] at hok
    subst hok
    constructor
    · exact (sortBy_perm _ es).trans (by rw [gatherLoop_ok _ files es hl])
    · exact sortBy_pairwise _ (fun a b => dateLeB_total a.date b.date)
        (fun a b c => dateLeB_trans a.date b.date c.date) es

theorem gather_entries_spec_witness :
    List.Perm [JEntry.mk ⟨2026, 1, 7⟩ "2026-01-07.md" "c"]
      ([("2026-01-07.md", "c")].filterMap
        (gatherPick (dateSubDays ⟨2026, 1, 10⟩ 14))) ∧
    List.Pairwise (fun a b => dateLeB a.date b.date = true)
      [JEntry.mk ⟨2026, 1, 7⟩ "2026-01-07.md" "c"] :=
  gather_entries_spec [("2026-01-07.md", "c")] ⟨2026, 1, 10⟩ 14 _ (by rfl)

/-! ## C7: `check_stale_staging` -/

theorem staleLoop_ok (today : PyDate) : ∀ (files : List String)
    (res : List PyDate), staleLoop today files = .ok res →
    res = files.filterMap (stalePick today) := by
  intro files
  induction files with
  | nil =>
    intro res h
    simp only [staleLoop, Except.ok.injEq] at h
    simp [← h]
  | cons f rest ih =>
    intro res h
    rcases hm : checkpointNameMatch f with _ | ⟨y, m, d⟩
    · simp only [staleLoop, hm] at h
      rw [List.filterMap_cons]
      simp only [stalePick, hm]
      exact ih res h
    · rcases hd : date_new y m d with e | dt
      · simp only [staleLoop, hm, hd] at h
        exact Except.noConfusion h
      · rcases hr : staleLoop today rest with e | ds
        · simp only [staleLoop, hm, hd, hr] at h
          exact Except.noConfusion h
        · simp only [staleLoop, hm, hd, hr, Except.ok.injEq] at h
          rw [List.filterMap_cons]
          simp only [stalePick, hm, hd]
          by_cases hc : dateLtB dt today = true
          · rw [if_pos hc] at h
            rw [← h, ih ds hr]
            simp [hc]
          · rw [if_neg hc] at h
            rw [← h, ih ds hr]
            simp [hc]

/-- C7 counterexample: a staging listing containing the file
`"2026-99-99-checkpoints.md"` (which matches the checkpoint pattern but
is not a valid date) makes `check_stale_staging` raise `ValueError`
instead of returning a list of dates. -/
theorem check_stale_staging_invalid_raises :
    check_stale_staging (some ["2026-99-99-checkpoints.md"]) ⟨2026, 1, 10⟩ =
      Except.error PyError.valueError := by rfl

/-- C7 (corrected): `check_stale_staging` returns the empty list when
the staging directory does not exist; otherwise, whenever it returns
(which it does unless some filename matches the checkpoint pattern with
invalid date components, in which case `ValueError` propagates), the
returned list holds exactly the dates of files matching
`YYYY-MM-DD-checkpoints.md` whose date is strictly before today, sorted
ascending. -/
theorem check_stale_staging_spec (today : PyDate) :
    (check_stale_staging none today = .ok []) ∧
    (∀ (files : List String) (res : List PyDate),
      check_stale_staging (some files) today = .ok res →
      List.Perm res (files.filterMap (stalePick today)) ∧
      res.Pairwise (fun a b => dateLeB a b = true)) := by
  refine ⟨rfl, ?_⟩
  intro files res hok
  simp only [check_stale_staging] at hok
  rcases hl : staleLoop today files with e | ds
  · rw [hl] at hok
    exact absurd hok (by simp)
  · rw [hl] at hok
    simp only [Except.ok.injEq] at hok
    subst hok
    constructor
    · exact (sortBy_perm _ ds).trans (by rw [staleLoop_ok today files ds hl])
    · exact sortBy_pairwise _ dateLeB_total dateLeB_trans ds

theorem check_stale_staging_spec_witness :
    List.Perm [PyDate.mk 2026 1 3, PyDate.mk 2026 1 9]
      (["2026-01-09-checkpoints.md", "x.md", "2026-01-03-checkpoints.md",
        "2027-01-01-checkpoints.md"].filterMap (stalePick ⟨2026, 1, 10⟩)) ∧
    List.Pairwise (fun a b => dateLeB a b = true)
      [PyDate.mk 2026 1 3, PyDate.mk 2026 1 9] :=
  (check_stale_staging_spec ⟨2026, 1, 10⟩).2
    ["2026-01-09-checkpoints.md", "x.md", "2026-01-03-checkpoints.md",
      "2027-01-01-checkpoints.md"] _ (by rfl)

/-! ## C3: response parsing in `classify_reply` -/

theorem scanFirst_eq_none {α : Type} (f : List Char → Option α) :
    ∀ l : List Char, scanFirst f l = none ↔
      ∀ pre suf : List Char, l = pre ++ suf → f suf = none := by
  intro l
  induction l with
  | nil =>
    simp only [scanFirst]
    constructor
    · intro h pre suf heq
      rcases List.append_eq_nil.mp heq.symm with ⟨rfl, rfl⟩
      exact h
    · intro h
      exact h [] [] rfl
  | cons c rest ih =>
    constructor
    · intro h pre suf heq
      rcases hf : f (c :: rest) with _ | r
      · simp only [scanFirst, hf] at h
        cases pre with
        | nil =>
          simp only [List.nil_append] at heq
          rw [← heq]
          exact hf
        | cons p ps =>
          simp only [List.cons_append, List.cons.injEq] at heq
          exact (ih.mp h) ps suf heq.2
      · simp [scanFirst, hf] at h
    · intro h
      have hf : f (c :: rest) = none := h [] (c :: rest) rfl
      simp only [scanFirst, hf]
      exact ih.mpr (fun pre suf heq => h (c :: pre) suf (by simp [heq]))

theorem scanFirst_eq_some {α : Type} (f : List Char → Option α) :
    ∀ (l : List Char) (r : α), scanFirst f l = some r →
      ∃ pre suf, l = pre ++ suf ∧ f suf = some r ∧
        ∀ pre' suf', l = pre' ++ suf' → pre'.length < pre.length →
          f suf' = none := by
  intro l
  induction l with
  | nil =>
    intro r h
    simp only [scanFirst] at h
    exact ⟨[], [], rfl, h, by simp⟩
  | cons c rest ih =>
    intro r h
    rcases hf : f (c :: rest) with _ | r'
    · simp only [scanFirst, hf] at h
      obtain ⟨pre, suf, heq, hsome, hmin⟩ := ih r h
      refine ⟨c :: pre, suf, by simp [heq], hsome, ?_⟩
      intro pre' suf' heq' hlt
      cases pre' with
      | nil =>
        simp only [List.nil_append] at heq'
        rw [← heq']
        exact hf
      | cons p ps =>
        simp only [List.cons_append, List.cons.injEq] at heq'
        exact hmin ps suf' heq'.2 (by simpa using hlt)
    · simp only [scanFirst, hf, Option.some.injEq] at h
      exact ⟨[], c :: rest, rfl, by rw [hf, h], by simp⟩

theorem tryClassAt_mem (l : List Char) (r : String)
    (h : tryClassAt l = some r) :
    r = "APPROVE" ∨ r = "REVISE" ∨ r = "UNCLEAR" := by
  rcases hd : dropLit "CLASSIFICATION:".data l with _ | rest
  · simp only [tryClassAt, hd] at h
    exact Option.noConfusion h
  · simp only [tryClassAt, hd] at h
    split at h
    · exact Or.inl (Option.some.inj h).symm
    · split at h
      · exact Or.inr (Or.inl (Option.some.inj h).symm)
      · split at h
        · exact Or.inr (Or.inr (Option.some.inj h).symm)
        · exact Option.noConfusion h

/-- C3: the reply classification is three-way: whatever the model's
response text, the parsed classification is `"APPROVE"`, `"REVISE"` or
`"UNCLEAR"`, and it is `"UNCLEAR"` whenever no position of the text
matches `CLASSIFICATION:\s*(APPROVE|REVISE|UNCLEAR)`; the feedback is
the first (leftmost) match of `FEEDBACK:\s*(.+)` stripped of
surrounding whitespace, and the empty string when there is no such
match. -/
theorem classify_parse_spec (s : String) :
    ((parse_reply_response s).1 = "APPROVE" ∨
      (parse_reply_response s).1 = "REVISE" ∨
      (parse_reply_response s).1 = "UNCLEAR") ∧
    ((∀ pre suf, s.data = pre ++ suf → tryClassAt suf = none) →
      (parse_reply_response s).1 = "UNCLEAR") ∧
    ((∀ pre suf, s.data = pre ++ suf → tryFeedbackAt suf = none) →
      (parse_reply_response s).2 = "") ∧
    (∀ cap, scanFirst tryFeedbackAt s.data = some cap →
      (parse_reply_response s).2 = pyStrip cap ∧
      ∃ pre suf, s.data = pre ++ suf ∧ tryFeedbackAt suf = some cap ∧
        ∀ pre' suf', s.data = pre' ++ suf' → pre'.length < pre.length →
          tryFeedbackAt suf' = none) := by
  refine ⟨?_, ?_, ?_, ?_⟩
  · rcases hc : scanFirst tryClassAt s.data with _ | r
    · simp [parse_reply_response, hc]
    · obtain ⟨pre, suf, _, hsome, _⟩ := scanFirst_eq_some tryClassAt s.data r hc
      have := tryClassAt_mem suf r hsome
      simpa [parse_reply_response, hc] using this
  · intro h
    have hc : scanFirst tryClassAt s.data = none :=
      (scanFirst_eq_none tryClassAt s.data).mpr h
    simp [parse_reply_response, hc]
  · intro h
    have hf : scanFirst tryFeedbackAt s.data = none :=
      (scanFirst_eq_none tryFeedbackAt s.data).mpr h
    simp [parse_reply_response, hf]
  · intro cap hf
    refine ⟨by simp [parse_reply_response, hf], ?_⟩
    exact scanFirst_eq_some tryFeedbackAt s.data cap hf

theorem classify_parse_spec_witness :
    (parse_reply_response "thanks!").1 = "UNCLEAR" ∧
      (parse_reply_response "thanks!").2 = "" := by
  have h := classify_parse_spec "thanks!"
  refine ⟨h.2.1 ?_, h.2.2.1 ?_⟩
  · exact (scanFirst_eq_none tryClassAt _).mp (by rfl)
  · exact (scanFirst_eq_none tryFeedbackAt _).mp (by rfl)

/-! ## C6: `process_replies` -/

/-- C6: for each processed reply: the reply is marked read and a
confirmation email (with the classification's subject) is recorded; on
`"APPROVE"` the summaries directory is transformed by `finalize_draft`
and the pending feedback is untouched; on `"REVISE"` the feedback is
appended and the summaries are untouched; on any other classification
both are untouched.  `finalize_draft` either finds no draft (returning
`false` and leaving the listing unchanged) or renames a matching draft
of maximal modification time, dropping its `-DRAFT` marker.  The
returned count is the number of fetched replies (0 when there are
none). -/
theorem process_replies_spec (respond : String → String) :
    (∀ (replies : List Reply) (st : RPState),
      (process_replies respond replies st).1 = replies.length) ∧
    (∀ (st : RPState) (r : Reply),
      (processOne respond st r).readIds = st.readIds ++ [r.id] ∧
      (processOne respond st r).sent = st.sent ++
        [(confSubject (parse_reply_response (respond r.body)).1,
          (parse_reply_response (respond r.body)).2)] ∧
      ((parse_reply_response (respond r.body)).1 = "APPROVE" →
        (processOne respond st r).pendingFeedback = st.pendingFeedback ∧
        (processOne respond st r).summaries = (finalize_draft st.summaries).2) ∧
      ((parse_reply_response (respond r.body)).1 = "REVISE" →
        (processOne respond st r).summaries = st.summaries ∧
        (processOne respond st r).pendingFeedback =
          st.pendingFeedback ++ [(parse_reply_response (respond r.body)).2]) ∧
      ((parse_reply_response (respond r.body)).1 ≠ "APPROVE" →
        (parse_reply_response (respond r.body)).1 ≠ "REVISE" →
        (processOne respond st r).summaries = st.summaries ∧
        (processOne respond st r).pendingFeedback = st.pendingFeedback)) ∧
    (∀ files : List (String × Nat),
      (files.filter (fun f => globDraftMatch f.1) = [] ∧
        finalize_draft files = (false, files)) ∨
      (∃ d, globDraftMatch d.1 = true ∧ d ∈ files ∧
        (∀ g ∈ files, globDraftMatch g.1 = true → g.2 ≤ d.2) ∧
        finalize_draft files = (true, renameFile d.1 (finalizedName d.1) files))) := by
  refine ⟨?_, ?_, ?_⟩
  · intro replies st
    simp [process_replies]
  · intro st r
    by_cases hA : (parse_reply_response (respond r.body)).1 = "APPROVE"
    · simp [processOne, hA]
    · by_cases hR : (parse_reply_response (respond r.body)).1 = "REVISE"
      · simp [processOne, hA, hR]
      · simp [processOne, hA, hR]
  · intro files
    have hperm := sortBy_perm (fun (a b : String × Nat) => b.2 ≤ a.2)
      (files.filter (fun f => globDraftMatch f.1))
    rcases hs : sortBy (fun (a b : String × Nat) => b.2 ≤ a.2)
        (files.filter (fun f => globDraftMatch f.1)) with _ | ⟨d, rest⟩
    · left
      rw [hs] at hperm
      have hnil : files.filter (fun f => globDraftMatch f.1) = [] :=
        hperm.symm.eq_nil
      exact ⟨hnil, by simp [finalize_draft, hs]⟩
    · right
      rw [hs] at hperm
      have hd_filter : d ∈ files.filter (fun f => globDraftMatch f.1) :=
        hperm.mem_iff.mp (by simp)
      have hd_files : d ∈ files ∧ globDraftMatch d.1 = true := by
        have := List.mem_filter.mp hd_filter
        exact ⟨this.1, this.2⟩
      have hpw := sortBy_pairwise (fun (a b : String × Nat) => b.2 ≤ a.2)
        (fun a b => by simp only [decide_eq_true_eq]; omega)
        (fun a b c h1 h2 => by
          simp only [decide_eq_true_eq] at *
          omega)
        (files.filter (fun f => globDraftMatch f.1))
      rw [hs] at hpw
      rcases List.pairwise_cons.mp hpw with ⟨hmax, _⟩
      refine ⟨d, hd_files.2, hd_files.1, ?_, by simp [finalize_draft, hs]⟩
      intro g hg hglob
      have hgf : g ∈ files.filter (fun f => globDraftMatch f.1) :=
        List.mem_filter.mpr ⟨hg, hglob⟩
      rcases List.mem_cons.mp (hperm.symm.mem_iff.mp hgf) with rfl | hin
      · omega
      · simpa using hmax g hin

theorem process_replies_spec_witness :
    (process_replies (fun _ => "CLASSIFICATION: APPROVE") []
      ⟨[], [], [], []⟩).1 = 0 :=
  (process_replies_spec (fun _ => "CLASSIFICATION: APPROVE")).1 [] ⟨[], [], [], []⟩

/-! ## C8: `auto_wrapup` -/

theorem assocFind_assocPut_ne {α : Type} (l : List (String × α))
    (k k' : String) (v : α) (h : k ≠ k') :
    assocFind (assocPut l k' v) k = assocFind l k := by
  induction l with
  | nil =>
    have hne : ¬ k' = k := fun hh => h hh.symm
    simp [assocPut, assocFind, hne]
  | cons p rest ih =>
    obtain ⟨k'', v''⟩ := p
    by_cases h2 : k'' = k'
    · subst h2
      have : ¬ k'' = k := fun hh => h (hh ▸ rfl)
      simp [assocPut, assocFind, this]
    · simp [assocPut, assocFind, h2, ih]

/-- C8 counterexample: with a stale nonempty checkpoint for 2026-01-05
and an entries directory that already contains the journal entry file
`2026-01-05.md` (with empty content), `auto_wrapup` overwrites that
existing journal entry file with the synthesized text — the claim that
an existing entry is never overwritten fails on empty files, because
the code tests `if existing_journal:` (truthiness) rather than
existence. -/
theorem auto_wrapup_overwrites_empty_entry :
    (assocFind ([("2026-01-05.md", "")] : List (String × String))
        "2026-01-05.md" = some "") ∧
    auto_wrapup (fun _ _ => "SYNTH")
        ⟨[("2026-01-05-checkpoints.md", "notes")], [("2026-01-05.md", "")]⟩
        ⟨2026, 1, 5⟩ =
      (true, ⟨[], [("2026-01-05.md", "SYNTH")]⟩) :=
  ⟨rfl, rfl⟩

/-- C8 (corrected): `auto_wrapup` never overwrites an existing
journal entry with nonempty content: when the journal entry file for
the target date exists with nonempty content (and the checkpoint file
exists with nonempty content), it only deletes the checkpoint file and
returns `True`, leaving the entries directory untouched; a synthesized
entry is written only when the journal entry file is missing or empty
(the code treats an empty file as absent); in every case, entry files
for other dates are unchanged; and with no checkpoint file (or an
empty one) it returns `False` and changes nothing. -/
theorem auto_wrapup_spec (synth : String → PyDate → String) (fs : HeartbeatFS)
    (target : PyDate) :
    (∀ j c, assocFind fs.entries (isoformat target ++ ".md") = some j →
      j ≠ "" →
      assocFind fs.staging (isoformat target ++ "-checkpoints.md") = some c →
      c ≠ "" →
      auto_wrapup synth fs target =
        (true, ⟨removeFile fs.staging (isoformat target ++ "-checkpoints.md"),
          fs.entries⟩)) ∧
    (∀ c, assocFind fs.staging (isoformat target ++ "-checkpoints.md") = some c →
      c ≠ "" →
      (assocFind fs.entries (isoformat target ++ ".md") = none ∨
        assocFind fs.entries (isoformat target ++ ".md") = some "") →
      auto_wrapup synth fs target =
        (true, ⟨removeFile fs.staging (isoformat target ++ "-checkpoints.md"),
          assocPut fs.entries (isoformat target ++ ".md") (synth c target)⟩)) ∧
    (∀ nm, nm ≠ isoformat target ++ ".md" →
      assocFind (auto_wrapup synth fs target).2.entries nm =
        assocFind fs.entries nm) ∧
    (assocFind fs.staging (isoformat target ++ "-checkpoints.md") = none →
      auto_wrapup synth fs target = (false, fs)) ∧
    (assocFind fs.staging (isoformat target ++ "-checkpoints.md") = some "" →
      auto_wrapup synth fs target = (false, fs)) := by
  obtain ⟨stg, ent⟩ := fs
  refine ⟨?_, ?_, ?_, ?_, ?_⟩
  · intro j c hj hjne hc hcne
    simp only [auto_wrapup, hc, hj, if_neg hcne, if_neg hjne]
  · intro c hc hcne hj
    rcases hj with hj | hj
    · simp only [auto_wrapup, hc, hj, if_neg hcne]
    · simp [auto_wrapup, hc, hj, if_neg hcne]
  · intro nm hnm
    rcases hc : assocFind stg (isoformat target ++ "-checkpoints.md") with _ | c
    · simp [auto_wrapup, hc]
    · by_cases hce : c = ""
      · simp [auto_wrapup, hc, hce]
      · rcases hj : assocFind ent (isoformat target ++ ".md") with _ | j
        · simp only [auto_wrapup, hc, hj, if_neg hce]
          exact assocFind_assocPut_ne ent nm _ _ hnm
        · by_cases hje : j = ""
          · simp only [auto_wrapup, hc, hj, if_neg hce, hje, if_pos rfl]
            exact assocFind_assocPut_ne ent nm _ _ hnm
          · simp [auto_wrapup, hc, hj, hce, hje]
  · intro hc
    simp [auto_wrapup, hc]
  · intro hc
    simp [auto_wrapup, hc]

theorem auto_wrapup_spec_witness :
    auto_wrapup (fun _ _ => "SYNTH")
        ⟨[("2026-01-05-checkpoints.md", "notes")], [("2026-01-05.md", "real")]⟩
        ⟨2026, 1, 5⟩ =
      (true, ⟨[], [("2026-01-05.md", "real")]⟩) := by
  have h := (auto_wrapup_spec (fun _ _ => "SYNTH")
    ⟨[("2026-01-05-checkpoints.md", "notes")], [("2026-01-05.md", "real")]⟩
    ⟨2026, 1, 5⟩).1 "real" "notes" (by rfl) (by decide) (by rfl) (by decide)
  exact h.trans rfl

/-! ## C9: `_deep_merge` mutates neither of its arguments

The frame property is proved against the heap embedding: every address
that existed before the call (`a < h.next`) still holds the same object
afterwards, and the returned dict is at a fresh address. -/

theorem heap_lookup_write (h : Heap) (a : Addr) (o : HObj) (a' : Addr) :
    (h.write a o).lookup a' = if a = a' then some o else h.lookup a' := rfl

theorem heap_lookup_alloc (h : Heap) (o : HObj) (a' : Addr) :
    (h.alloc o).1.lookup a' = if h.next = a' then some o else h.lookup a' := rfl

theorem copyVal_frame_of (fuel : Nat)
    (hD : ∀ h r h' r', deep_copyH fuel h r = some (h', r') →
      h.next ≤ h'.next ∧ (∀ a, a < h.next → h'.lookup a = h.lookup a) ∧
      h.next ≤ r' ∧ r' < h'.next) :
    ∀ h v h' v', copyVal fuel h v = some (h', v') →
      h.next ≤ h'.next ∧ (∀ a, a < h.next → h'.lookup a = h.lookup a) := by
  intro h v h' v' hc
  cases v with
  | atom n =>
    simp only [copyVal, Option.some.injEq, Prod.mk.injEq] at hc
    rw [← hc.1]
    exact ⟨Nat.le_refl _, fun a _ => rfl⟩
  | ref r =>
    rcases hd : deep_copyH fuel h r with _ | ⟨h₁, r₁⟩
    · simp [copyVal, hd] at hc
    · simp only [copyVal, hd, Option.some.injEq, Prod.mk.injEq] at hc
      rw [← hc.1]
      obtain ⟨h1, h2, _, _⟩ := hD h r h₁ r₁ hd
      exact ⟨h1, h2⟩

theorem copySlots_frame_of (fuel : Nat)
    (hD : ∀ h r h' r', deep_copyH fuel h r = some (h', r') →
      h.next ≤ h'.next ∧ (∀ a, a < h.next → h'.lookup a = h.lookup a) ∧
      h.next ≤ r' ∧ r' < h'.next) :
    ∀ (obj : HObj) h h' obj', copySlots fuel h obj = some (h', obj') →
      h.next ≤ h'.next ∧ (∀ a, a < h.next → h'.lookup a = h.lookup a) := by
  intro obj
  induction obj with
  | nil =>
    intro h h' obj' hc
    simp only [copySlots, Option.some.injEq, Prod.mk.injEq] at hc
    rw [← hc.1]
    exact ⟨Nat.le_refl _, fun a _ => rfl⟩
  | cons p rest ih =>
    intro h h' obj' hc
    obtain ⟨k, v⟩ := p
    rcases hv : copyVal fuel h v with _ | ⟨h₁, v₁⟩
    · simp [copySlots, hv] at hc
    · rcases hr : copySlots fuel h₁ rest with _ | ⟨h₂, rest'⟩
      · simp [copySlots, hv, hr] at hc
      · simp only [copySlots, hv, hr, Option.some.injEq, Prod.mk.injEq] at hc
        rw [← hc.1]
        obtain ⟨hn1, hl1⟩ := copyVal_frame_of fuel hD h v h₁ v₁ hv
        obtain ⟨hn2, hl2⟩ := ih h₁ h₂ rest' hr
        refine ⟨Nat.le_trans hn1 hn2, ?_⟩
        intro a ha
        rw [hl2 a (Nat.lt_of_lt_of_le ha hn1), hl1 a ha]

theorem copy_frame : ∀ fuel : Nat, ∀ h r h' r',
    deep_copyH fuel h r = some (h', r') →
    h.next ≤ h'.next ∧ (∀ a, a < h.next → h'.lookup a = h.lookup a) ∧
    h.next ≤ r' ∧ r' < h'.next := by
  intro fuel
  induction fuel with
  | zero =>
    intro h r h' r' hc
    simp [deep_copyH] at hc
  | succ n ih =>
    intro h r h' r' hc
    rcases hl : h.lookup r with _ | obj
    · simp [deep_copyH, hl] at hc
    · rcases hs : copySlots n h obj with _ | ⟨h₁, slots⟩
      · simp [deep_copyH, hl, hs] at hc
      · simp only [deep_copyH, hl, hs, Option.some.injEq, Prod.mk.injEq,
          Heap.alloc] at hc
        obtain ⟨hn1, hl1⟩ := copySlots_frame_of n ih obj h h₁ slots hs
        obtain ⟨hh, hr⟩ := hc
        subst hh
        subst hr
        refine ⟨?_, ?_, ?_, ?_⟩
        · exact Nat.le_succ_of_le hn1
        · intro a ha
          have hred : (Heap.mk ((h₁.next, slots) :: h₁.objs)
                (h₁.next + 1)).lookup a =
              if h₁.next = a then some slots else h₁.lookup a := rfl
          rw [hred, if_neg (Nat.ne_of_gt (Nat.lt_of_lt_of_le ha hn1))]
          exact hl1 a ha
        · exact hn1
        · exact Nat.lt_succ_self _

theorem mergeSlots_frame_of (fuel : Nat)
    (hD : ∀ h b o h' r, deep_mergeH fuel h b o = some (h', r) →
      h.next ≤ h'.next ∧ (∀ a, a < h.next → h'.lookup a = h.lookup a) ∧
      h.next ≤ r ∧ r < h'.next) :
    ∀ (l : HObj) h res h' r', mergeSlots fuel h res l = some (h', r') →
      r' = res ∧ h.next ≤ h'.next ∧
      (∀ a, a < h.next → a ≠ res → h'.lookup a = h.lookup a) := by
  intro l
  induction l with
  | nil =>
    intro h res h' r' hc
    simp only [mergeSlots, Option.some.injEq, Prod.mk.injEq] at hc
    rw [← hc.1, ← hc.2]
    exact ⟨rfl, Nat.le_refl _, fun a _ _ => rfl⟩
  | cons p rest ih =>
    intro h res h' r' hc
    obtain ⟨k, v⟩ := p
    rcases hro : h.lookup res with _ | resObj
    · simp [mergeSlots, hro] at hc
    · -- the replace branch, shared by every case in which the current
      -- value and the overlay value are not both dict refs
      have hrep : ∀ v' : HVal,
          mergeSlots fuel (h.write res (assocPut resObj k v')) res rest =
            some (h', r') →
          r' = res ∧ h.next ≤ h'.next ∧
            (∀ a, a < h.next → a ≠ res → h'.lookup a = h.lookup a) := by
        intro v' hc'
        obtain ⟨hr', hn, hl⟩ := ih _ res h' r' hc'
        refine ⟨hr', hn, ?_⟩
        intro a ha hne
        rw [hl a ha hne,
          heap_lookup_write h res _ a, if_neg (fun hh => hne hh.symm)]
      rcases hfv : assocFind resObj k with _ | w
      · cases v with
        | atom n =>
          simp only [mergeSlots, hro, hfv] at hc
          exact hrep _ hc
        | ref ov =>
          simp only [mergeSlots, hro, hfv] at hc
          exact hrep _ hc
      · cases w with
        | atom wn =>
          cases v with
          | atom n =>
            simp only [mergeSlots, hro, hfv] at hc
            exact hrep _ hc
          | ref ov =>
            simp only [mergeSlots, hro, hfv] at hc
            exact hrep _ hc
        | ref br =>
          cases v with
          | atom n =>
            simp only [mergeSlots, hro, hfv] at hc
            exact hrep _ hc
          | ref ov =>
            -- both dicts: recursive merge then store
            rcases hm : deep_mergeH fuel h br ov with _ | ⟨h₁, m⟩
            · simp [mergeSlots, hro, hfv, hm] at hc
            · rcases hro1 : h₁.lookup res with _ | resObj₁
              · simp [mergeSlots, hro, hfv, hm, hro1] at hc
              · simp only [mergeSlots, hro, hfv, hm, hro1] at hc
                obtain ⟨hn1, hl1, _, _⟩ := hD h br ov h₁ m hm
                obtain ⟨hr', hn, hl⟩ := ih _ res h' r' hc
                refine ⟨hr', Nat.le_trans hn1 hn, ?_⟩
                intro a ha hne
                have ha1 : a < (h₁.write res
                    (assocPut resObj₁ k (HVal.ref m))).next :=
                  Nat.lt_of_lt_of_le ha hn1
                rw [hl a ha1 hne, heap_lookup_write h₁ res _ a,
                  if_neg (fun hh => hne hh.symm), hl1 a ha]

theorem merge_frame : ∀ fuel : Nat, ∀ h b o h' r,
    deep_mergeH fuel h b o = some (h', r) →
    h.next ≤ h'.next ∧ (∀ a, a < h.next → h'.lookup a = h.lookup a) ∧
    h.next ≤ r ∧ r < h'.next := by
  intro fuel
  induction fuel with
  | zero =>
    intro h b o h' r hc
    simp [deep_mergeH] at hc
  | succ n ih =>
    intro h b o h' r hc
    rcases hcp : deep_copyH (n + 1) h b with _ | ⟨h₁, res⟩
    · simp [deep_mergeH, hcp] at hc
    · rcases hov : h₁.lookup o with _ | ovObj
      · simp [deep_mergeH, hcp, hov] at hc
      · simp only [deep_mergeH, hcp, hov] at hc
        obtain ⟨hn1, hl1, hres1, hres2⟩ := copy_frame (n + 1) h b h₁ res hcp
        obtain ⟨hr', hn2, hl2⟩ := mergeSlots_frame_of n ih ovObj h₁ res h' r hc
        subst hr'
        refine ⟨Nat.le_trans hn1 hn2, ?_, hres1, Nat.lt_of_lt_of_le hres2 hn2⟩
        intro a ha
        rw [hl2 a (Nat.lt_of_lt_of_le ha hn1)
          (Nat.ne_of_lt (Nat.lt_of_lt_of_le ha hres1)), hl1 a ha]

/-- C9: `_deep_merge` does not mutate its arguments: on the heap
embedding, every dict object that existed before the call (any address
below the allocation watermark, in particular `base`, `overlay` and
all their nested dicts) holds exactly the same slots afterwards, and
the returned dict lives at a fresh address; consequently the
copy-then-merge spine of `load_config` leaves every pre-existing
object — `DEFAULT_CONFIG` included — unchanged; and merging an empty
overlay returns a dict equal to `base`
(`_deep_merge(base, {}) = base` in the pure value model). -/
theorem deep_merge_no_mutation :
    (∀ fuel h b o h' r, deep_mergeH fuel h b o = some (h', r) →
      h.next ≤ r ∧ r < h'.next ∧
      (∀ a, a < h.next → h'.lookup a = h.lookup a)) ∧
    (∀ fuel h dflt user h' r, load_configH fuel h dflt user = some (h', r) →
      ∀ a, a < h.next → h'.lookup a = h.lookup a) ∧
    (∀ base : PObj, deep_merge base [] = base) := by
  refine ⟨?_, ?_, ?_⟩
  · intro fuel h b o h' r hm
    obtain ⟨_, hl, hr1, hr2⟩ := merge_frame fuel h b o h' r hm
    exact ⟨hr1, hr2, hl⟩
  · intro fuel h dflt user h' r hm
    rcases hcp : deep_copyH fuel h dflt with _ | ⟨h₁, cfg⟩
    · simp [load_configH, hcp] at hm
    · obtain ⟨hn1, hl1, _, _⟩ := copy_frame fuel h dflt h₁ cfg hcp
      cases user with
      | none =>
        simp only [load_configH, hcp, Option.some.injEq, Prod.mk.injEq] at hm
        rw [← hm.1]
        exact hl1
      | some u =>
        rcases hmg : deep_mergeH fuel h₁ cfg u with _ | ⟨h₂, cfg₂⟩
        · simp [load_configH, hcp, hmg] at hm
        · simp only [load_configH, hcp, hmg, Option.some.injEq,
            Prod.mk.injEq] at hm
          obtain ⟨_, hl2, _, _⟩ := merge_frame fuel h₁ cfg u h₂ cfg₂ hmg
          rw [← hm.1]
          intro a ha
          rw [hl2 a (Nat.lt_of_lt_of_le ha hn1), hl1 a ha]
  · intro base
    rw [deep_merge, mergeItems.eq_1, deep_copy_obj_id]

theorem deep_merge_no_mutation_witness :
    (2 : Nat) ≤ 2 ∧ 2 < 3 ∧
    (∀ a, a < 2 →
      (Heap.mk [(2, []), (0, []), (1, [])] 3).lookup a =
        (Heap.mk [(0, []), (1, [])] 2).lookup a) := by
  have hm : deep_mergeH 1 ⟨[(0, []), (1, [])], 2⟩ 0 1 =
      some (⟨[(2, []), (0, []), (1, [])], 3⟩, 2) := by
    simp [deep_mergeH, deep_copyH, copySlots, mergeSlots, Heap.lookup,
      lookupObjs, Heap.alloc]
  exact deep_merge_no_mutation.1 1 ⟨[(0, []), (1, [])], 2⟩ 0 1
    ⟨[(2, []), (0, []), (1, [])], 3⟩ 2 hm

end WJS
